import Mathlib

/-!
Verification of `rustbitcoin` (src/point.rs): points on a short Weierstrass
curve `y^2 = x^3 + a*x + b` over the integers, with the group-law addition.

Shallow embedding conventions:
* Rust `i32` scalars are modelled as `Int`; the spec treats arithmetic as exact
  integer arithmetic and declares overflow a fatal out-of-scope error.
* Rust `/` on integers truncates toward zero, so it is modelled by `Int.tdiv`
  (guarded against a zero divisor, which panics in Rust).
* Every fatal outcome (the panics in `Point::new` and `Add::add`, the unwrap of
  the `None` coordinate sentinel, division by zero) is modelled as an error
  value of an `Except`-returning function, so "the code panics on input i" is
  exactly "the function returns `.error e` at i".
-/

namespace RustBtc

/-- Modelled from the spec: the coordinate element type `CurveElement` of the
module `curve_element`, which is not part of the given sources. Per the spec it
is either a finite integer coordinate or the distinguished sentinel used only
for the point at infinity; equality is total with the sentinel equal to itself. -/
inductive CurveElement where
  | none
  | some (n : Int)
deriving DecidableEq

/-- The failure modes of the library. Each Rust panic is one constructor:
`curveMismatch` and `notOnCurve` and `somethingWrong` are the three explicit
panics of src/point.rs, `sentinelMisuse` is the fatal unwrap of the sentinel
(spec: applying `unwrap` to the sentinel is fatal), `divByZero` is the Rust
integer-division panic. `invalidPoint` is the error the spec names for
constructing a point from exactly one sentinel coordinate; the code contains
no check producing it, it is listed so statements can mention it. -/
inductive PointError where
  | curveMismatch
  | notOnCurve (x y a b : Int)
  | invalidPoint
  | sentinelMisuse
  | divByZero
  | somethingWrong
deriving DecidableEq

/-- Modelled from the spec: `int_to_curve` wraps a signed integer as a finite
coordinate. -/
def CurveElement.int_to_curve (n : Int) : CurveElement := .some n

/-- Modelled from the spec: `is_none` tests for the sentinel. -/
def CurveElement.is_none : CurveElement → Bool
  | .none => true
  | .some _ => false

/-- Modelled from the spec: `unwrap` retrieves the underlying scalar; applying
it to the sentinel is fatal, modelled as the `sentinelMisuse` error. -/
def CurveElement.unwrap : CurveElement → Except PointError Int
  | .none => .error .sentinelMisuse
  | .some n => .ok n

/-- Rust integer division `/`: truncation toward zero, fatal on a zero
divisor. -/
def intDiv (m n : Int) : Except PointError Int :=
  if n = 0 then .error .divByZero else .ok (m.tdiv n)

/-- The `Point` struct of src/point.rs: two coordinate elements and the curve
parameters. Lean's structural equality coincides with the Rust `PartialEq`
implementation, which compares all four fields. -/
structure Point where
  x : CurveElement
  y : CurveElement
  a : Int
  b : Int
deriving DecidableEq

instance {ε α : Type} [DecidableEq ε] [DecidableEq α] : DecidableEq (Except ε α) := fun u v =>
  match u, v with
  | .ok a, .ok b =>
      if h : a = b then .isTrue (by rw [h]) else .isFalse (by intro hc; cases hc; exact h rfl)
  | .error a, .error b =>
      if h : a = b then .isTrue (by rw [h]) else .isFalse (by intro hc; cases hc; exact h rfl)
  | .ok _, .error _ => .isFalse (by intro hc; cases hc)
  | .error _, .ok _ => .isFalse (by intro hc; cases hc)

/-- `Point::new` of src/point.rs: the infinity pair is accepted unchecked;
otherwise both coordinates are unwrapped (fatal on a sentinel) and the curve
equation is checked with a panic on failure. -/
def Point.new (x y : CurveElement) (a b : Int) : Except PointError Point :=
  if x.is_none && y.is_none then .ok ⟨x, y, a, b⟩
  else match x.unwrap, y.unwrap with
  | .ok nx, .ok ny =>
      if ny ^ 2 ≠ nx ^ 3 + a * nx + b then .error (.notOnCurve nx ny a b)
      else .ok ⟨x, y, a, b⟩
  | .error e, _ => .error e
  | _, .error e => .error e

/-- `impl Add for Point` of src/point.rs, case by case in source order: curve
mismatch panic, the two infinity cases, the vertical-chord case, the chord
case (distinct x), the vertical-tangent case, the tangent case, and the final
catch-all panic. Rust's `&` evaluates both operands, so the vertical-tangent
guard unwraps `y` then `x` before comparing; the tangent branch re-unwraps the
same two values, which is observationally the reuse of `sx`/`sy` below. -/
def Point.add (p q : Point) : Except PointError Point :=
  if p.a ≠ q.a ∨ p.b ≠ q.b then .error .curveMismatch
  else if p.x.is_none then .ok q
  else if q.x.is_none then .ok p
  else if p.x = q.x ∧ p.y ≠ q.y then .ok ⟨.none, .none, p.a, p.b⟩
  else if p.x ≠ q.x then
    match p.x.unwrap, p.y.unwrap, q.x.unwrap, q.y.unwrap with
    | .ok sx, .ok sy, .ok ox, .ok oy =>
        (match intDiv (oy - sy) (ox - sx) with
        | .ok s =>
            let x := s ^ 2 - sx - ox
            let y := s * (sx - x) - sy
            .ok ⟨.int_to_curve x, .int_to_curve y, p.a, p.b⟩
        | .error e => .error e)
    | .error e, _, _, _ => .error e
    | _, .error e, _, _ => .error e
    | _, _, .error e, _ => .error e
    | _, _, _, .error e => .error e
  else
    match p.y.unwrap, p.x.unwrap with
    | .ok sy, .ok sx =>
        if p = q ∧ sy = 0 * sx then .ok ⟨.none, .none, p.a, p.b⟩
        else if p = q then
          match intDiv (3 * sx ^ 2 + p.a) (2 * sy) with
          | .ok s =>
              let x := s ^ 2 - 2 * sx
              let y := s * (sx - x) - sy
              .ok ⟨.int_to_curve x, .int_to_curve y, p.a, p.b⟩
          | .error e => .error e
        else .error .somethingWrong
    | .error e, _ => .error e
    | _, .error e => .error e

/-- The constructor invariant on a `Point` value: both coordinates are the
sentinel (the point at infinity), or both are finite and satisfy the curve
equation of the point's own parameters. -/
def Point.isValid (p : Point) : Bool :=
  match p.x, p.y with
  | .none, .none => true
  | .some nx, .some ny => decide (ny ^ 2 = nx ^ 3 + p.a * nx + p.b)
  | _, _ => false

/-- The spec's characterization of the constructor inputs that succeed: the
infinity pair, or a finite solution of the curve equation. Stated from the
spec's words, to be compared with `Point.new`. -/
def specConstructible (x y : CurveElement) (a b : Int) : Bool :=
  match x, y with
  | .none, .none => true
  | .some nx, .some ny => decide (ny ^ 2 = nx ^ 3 + a * nx + b)
  | _, _ => false

/-- C9: on the curve a = 5, b = 7, doubling (−1, 1) by the tangent rule gives
exactly (18, −77). -/
theorem double_neg_one_one :
    Point.add ⟨.some (-1), .some 1, 5, 7⟩ ⟨.some (-1), .some 1, 5, 7⟩
      = .ok ⟨.some 18, .some (-77), 5, 7⟩ := by decide

/-- C5: adding two points whose curve parameters differ is the fatal
`CurveMismatch` error; no point is returned. -/
theorem add_curve_mismatch (p q : Point) (h : p.a ≠ q.a ∨ p.b ≠ q.b) :
    Point.add p q = .error .curveMismatch := by
  unfold Point.add
  rw [if_pos h]

/-- Witness for C5 at a concrete pair of points on different curves. -/
theorem add_curve_mismatch_witness :
    ((5 : Int) ≠ 0 ∨ (7 : Int) ≠ 17) ∧
    Point.add ⟨.some 3, .some (-7), 5, 7⟩ ⟨.some 2, .some 5, 0, 17⟩
      = .error .curveMismatch :=
  ⟨by decide, add_curve_mismatch ⟨.some 3, .some (-7), 5, 7⟩ ⟨.some 2, .some 5, 0, 17⟩
    (by decide)⟩

/-- C6: for a valid point p, with O the infinity point carrying p's curve
parameters, O + p = p and p + O = p. -/
theorem add_identity (p : Point) (hp : p.isValid = true) :
    Point.add ⟨.none, .none, p.a, p.b⟩ p = .ok p ∧
    Point.add p ⟨.none, .none, p.a, p.b⟩ = .ok p := by
  obtain ⟨x, y, a, b⟩ := p
  cases x <;> cases y <;>
    simp_all [Point.add, Point.isValid, CurveElement.is_none]

/-- Witness for C6 at the point (2, 5) on the curve a = 5, b = 7. -/
theorem add_identity_witness :
    (Point.mk (.some 2) (.some 5) 5 7).isValid = true ∧
    Point.add ⟨.none, .none, 5, 7⟩ ⟨.some 2, .some 5, 5, 7⟩ = .ok ⟨.some 2, .some 5, 5, 7⟩ ∧
    Point.add ⟨.some 2, .some 5, 5, 7⟩ ⟨.none, .none, 5, 7⟩ = .ok ⟨.some 2, .some 5, 5, 7⟩ :=
  ⟨by decide, (add_identity ⟨.some 2, .some 5, 5, 7⟩ (by decide)).1,
    (add_identity ⟨.some 2, .some 5, 5, 7⟩ (by decide)).2⟩

/-- C7: a valid finite point (x, y) plus its inverse (x, −y) on the same curve
is the point at infinity, including the case y = 0. -/
theorem add_inverse (nx ny a b : Int) (h : ny ^ 2 = nx ^ 3 + a * nx + b) :
    Point.add ⟨.some nx, .some ny, a, b⟩ ⟨.some nx, .some (-ny), a, b⟩
      = .ok ⟨.none, .none, a, b⟩ := by
  by_cases hy : ny = 0
  · subst hy
    simp [Point.add, CurveElement.is_none, CurveElement.unwrap]
  · have hne : CurveElement.some ny ≠ CurveElement.some (-ny) := by
      intro hc
      injection hc with hc
      omega
    simp [Point.add, CurveElement.is_none, hne]

/-- Witness for C7 at the point (2, 5) on the curve a = 5, b = 7. -/
theorem add_inverse_witness :
    (5 : Int) ^ 2 = 2 ^ 3 + 5 * 2 + 7 ∧
    Point.add ⟨.some 2, .some 5, 5, 7⟩ ⟨.some 2, .some (-5), 5, 7⟩
      = .ok ⟨.none, .none, 5, 7⟩ :=
  ⟨by decide, add_inverse 2 5 5 7 (by decide)⟩

/-- C3: `Point.new x y a b` fails exactly when `(x, y)` is neither the infinity
pair nor a finite solution of the curve equation; when the input is
constructible it returns the point with exactly those components. -/
theorem new_ok_iff_constructible (x y : CurveElement) (a b : Int) :
    ((∃ e, Point.new x y a b = .error e) ↔ specConstructible x y a b = false) ∧
    (specConstructible x y a b = true → Point.new x y a b = .ok ⟨x, y, a, b⟩) := by
  cases x <;> cases y <;>
    simp [Point.new, specConstructible, CurveElement.is_none, CurveElement.unwrap]
  split_ifs with hc <;> simp [hc]

/-- Witness for C3: the on-curve input (3, −7) on a = 5, b = 7 constructs the
corresponding point. -/
theorem new_ok_iff_constructible_witness :
    specConstructible (.some 3) (.some (-7)) 5 7 = true ∧
    Point.new (.some 3) (.some (-7)) 5 7 = .ok ⟨.some 3, .some (-7), 5, 7⟩ :=
  ⟨by decide, (new_ok_iff_constructible (.some 3) (.some (-7)) 5 7).2 (by decide)⟩

/-- C4 counterexample: constructing with x the sentinel and y finite does fail,
but with the fatal sentinel unwrap, not with the spec's `InvalidPoint` error. -/
theorem new_half_sentinel_not_invalidPoint :
    Point.new .none (.some 1) 5 7 ≠ .error .invalidPoint ∧
    Point.new .none (.some 1) 5 7 = .error .sentinelMisuse := by decide

/-- C4 (amended): with exactly one coordinate the sentinel, `Point.new` fails
fatally, via the unwrap of the sentinel coordinate. -/
theorem new_half_sentinel_fails (x y : CurveElement) (a b : Int)
    (h : x.is_none ≠ y.is_none) :
    Point.new x y a b = .error .sentinelMisuse := by
  cases x <;> cases y <;> first
    | exact absurd rfl h
    | simp [Point.new, CurveElement.is_none, CurveElement.unwrap]

/-- Witness for the amended C4 at the input (None, 1). -/
theorem new_half_sentinel_fails_witness :
    (CurveElement.none).is_none ≠ (CurveElement.some 1).is_none ∧
    Point.new .none (.some 1) 5 7 = .error .sentinelMisuse :=
  ⟨by decide, new_half_sentinel_fails .none (.some 1) 5 7 (by decide)⟩

/-- An exact division computed by `Int.tdiv` recovers the dividend. -/
theorem tdiv_mul_cancel_of_dvd {m n : Int} (hn : n ≠ 0) (h : n ∣ m) :
    m.tdiv n * n = m := by
  obtain ⟨c, rfl⟩ := h
  rw [Int.mul_comm n c, Int.mul_tdiv_cancel c hn]

/-- With an exact chord slope, the chord formula lands on the curve. -/
theorem chord_on_curve (sx sy ox oy a b s : Int)
    (e1 : sy ^ 2 = sx ^ 3 + a * sx + b) (e2 : oy ^ 2 = ox ^ 3 + a * ox + b)
    (hne : sx ≠ ox) (e3 : s * (ox - sx) = oy - sy) :
    (s * (sx - (s ^ 2 - sx - ox)) - sy) ^ 2
      = (s ^ 2 - sx - ox) ^ 3 + a * (s ^ 2 - sx - ox) + b := by
  have hd : (ox - sx) ≠ 0 := sub_ne_zero.mpr (Ne.symm hne)
  have key : (ox - sx) * ((s * (sx - (s ^ 2 - sx - ox)) - sy) ^ 2)
      = (ox - sx) * ((s ^ 2 - sx - ox) ^ 3 + a * (s ^ 2 - sx - ox) + b) := by
    linear_combination (ox - (s ^ 2 - sx - ox)) * e1 + ((s ^ 2 - sx - ox) - sx) * e2
      + ((s ^ 2 - sx - ox) - sx) * (oy + sy + s * (ox - sx)) * e3
  exact mul_left_cancel₀ hd key

/-- With an exact tangent slope, the doubling formula lands on the curve. -/
theorem tangent_on_curve (sx sy a b s : Int)
    (e1 : sy ^ 2 = sx ^ 3 + a * sx + b) (e4 : s * (2 * sy) = 3 * sx ^ 2 + a) :
    (s * (sx - (s ^ 2 - 2 * sx)) - sy) ^ 2
      = (s ^ 2 - 2 * sx) ^ 3 + a * (s ^ 2 - 2 * sx) + b := by
  linear_combination e1 + ((s ^ 2 - 2 * sx) - sx) * e4

/-- C8: for valid finite points with distinct x on the same curve, addition is
the chord formula with the truncating quotient s = (q.y − p.y) / (q.x − p.x),
x-coordinate s² − p.x − q.x and y-coordinate s·(p.x − r.x) − p.y. -/
theorem add_chord (sx sy ox oy a b : Int)
    (hp : sy ^ 2 = sx ^ 3 + a * sx + b)
    (hq : oy ^ 2 = ox ^ 3 + a * ox + b)
    (hne : sx ≠ ox) :
    Point.add ⟨.some sx, .some sy, a, b⟩ ⟨.some ox, .some oy, a, b⟩
      = .ok ⟨.some ((oy - sy).tdiv (ox - sx) ^ 2 - sx - ox),
             .some ((oy - sy).tdiv (ox - sx)
               * (sx - ((oy - sy).tdiv (ox - sx) ^ 2 - sx - ox)) - sy),
             a, b⟩ := by
  have hxne : CurveElement.some sx ≠ CurveElement.some ox := by
    intro hc
    injection hc with hc
    exact hne hc
  have hd : ¬(ox - sx = 0) := by omega
  simp [Point.add, CurveElement.is_none, CurveElement.unwrap, hxne, intDiv, hd,
    CurveElement.int_to_curve]

/-- Witness for C8 with the chord of (3, 7) and (−1, −1) on a = 5, b = 7. -/
theorem add_chord_witness :
    (7 : Int) ^ 2 = 3 ^ 3 + 5 * 3 + 7 ∧
    ((-1 : Int)) ^ 2 = (-1) ^ 3 + 5 * (-1) + 7 ∧
    ((3 : Int) ≠ -1) ∧
    Point.add ⟨.some 3, .some 7, 5, 7⟩ ⟨.some (-1), .some (-1), 5, 7⟩
      = .ok ⟨.some 2, .some (-5), 5, 7⟩ :=
  ⟨by decide, by decide, by decide,
    (add_chord 3 7 (-1) (-1) 5 7 (by decide) (by decide) (by decide)).trans (by decide)⟩

/-- The slope divisions that addition would perform on a pair of finite points
are exact: in the chord case the x-difference divides the y-difference, in the
tangent case 2·y divides 3·x² + a. Where no division happens the condition is
vacuous. -/
def ExactSlopes (p q : Point) : Prop :=
  match p.x, p.y, q.x, q.y with
  | .some sx, .some sy, .some ox, .some oy =>
      (sx ≠ ox → (ox - sx) ∣ (oy - sy)) ∧
      (sx = ox → sy = oy → sy ≠ 0 → (2 * sy) ∣ (3 * sx ^ 2 + p.a))
  | _, _, _, _ => True

/-- Adding two finite points with equal curve parameters always returns a
point, whatever the coordinates. -/
theorem add_finite_ok (sx sy ox oy a b : Int) :
    ∃ r, Point.add ⟨.some sx, .some sy, a, b⟩ ⟨.some ox, .some oy, a, b⟩ = .ok r := by
  by_cases hx : sx = ox
  · subst hx
    by_cases hy : sy = oy
    · subst hy
      by_cases h0 : sy = 0
      · subst h0
        exact ⟨⟨.none, .none, a, b⟩, by
          simp [Point.add, CurveElement.is_none, CurveElement.unwrap]⟩
      · have h2 : ¬(2 * sy = 0) := by omega
        refine ⟨⟨.some ((3 * sx ^ 2 + a).tdiv (2 * sy) ^ 2 - 2 * sx),
                 .some ((3 * sx ^ 2 + a).tdiv (2 * sy)
                   * (sx - ((3 * sx ^ 2 + a).tdiv (2 * sy) ^ 2 - 2 * sx)) - sy),
                 a, b⟩, ?_⟩
        simp [Point.add, CurveElement.is_none, CurveElement.unwrap, intDiv, h0, h2,
          CurveElement.int_to_curve]
    · have hne : CurveElement.some sy ≠ CurveElement.some oy := by
        intro hc
        injection hc with hc
        exact hy hc
      exact ⟨⟨.none, .none, a, b⟩, by simp [Point.add, CurveElement.is_none, hne]⟩
  · have hxne : CurveElement.some sx ≠ CurveElement.some ox := by
      intro hc
      injection hc with hc
      exact hx hc
    have hd : ¬(ox - sx = 0) := by omega
    refine ⟨⟨.some ((oy - sy).tdiv (ox - sx) ^ 2 - sx - ox),
             .some ((oy - sy).tdiv (ox - sx)
               * (sx - ((oy - sy).tdiv (ox - sx) ^ 2 - sx - ox)) - sy),
             a, b⟩, ?_⟩
    simp [Point.add, CurveElement.is_none, CurveElement.unwrap, hxne, intDiv, hd,
      CurveElement.int_to_curve]

/-- C10: for operands satisfying the constructor invariant and sharing the
curve parameters, addition returns a point: every sentinel unwrap succeeds, no
division by zero occurs, and the final catch-all panic is unreachable (each of
those outcomes would surface as an `.error` of this model). -/
theorem add_total (p q : Point) (hp : p.isValid = true) (hq : q.isValid = true)
    (ha : p.a = q.a) (hb : p.b = q.b) :
    ∃ r, Point.add p q = .ok r := by
  obtain ⟨x, y, a, b⟩ := p
  obtain ⟨x', y', a', b'⟩ := q
  simp only at ha hb
  subst ha
  subst hb
  cases x <;> cases y <;> cases x' <;> cases y' <;>
    simp only [Point.isValid, decide_eq_true_eq, Bool.false_eq_true] at hp hq
  · exact ⟨⟨.none, .none, a, b⟩, by simp [Point.add, CurveElement.is_none]⟩
  · rename_i ox oy
    exact ⟨⟨.some ox, .some oy, a, b⟩, by simp [Point.add, CurveElement.is_none]⟩
  · rename_i sx sy
    exact ⟨⟨.some sx, .some sy, a, b⟩, by simp [Point.add, CurveElement.is_none]⟩
  · rename_i sx sy ox oy
    exact add_finite_ok sx sy ox oy a b

/-- Witness for C10 at the valid pair (2, 5) and (2, −5) on a = 5, b = 7. -/
theorem add_total_witness :
    (Point.mk (.some 2) (.some 5) 5 7).isValid = true ∧
    (Point.mk (.some 2) (.some (-5)) 5 7).isValid = true ∧
    ∃ r, Point.add ⟨.some 2, .some 5, 5, 7⟩ ⟨.some 2, .some (-5), 5, 7⟩ = .ok r :=
  ⟨by decide, by decide,
    add_total ⟨.some 2, .some 5, 5, 7⟩ ⟨.some 2, .some (-5), 5, 7⟩
      (by decide) (by decide) rfl rfl⟩

/-- C1 counterexample: on the curve a = 0, b = 17 the valid points (−2, 3) and
(2, 5) add, with the truncating slope (5 − 3) / (2 − (−2)) = 0, to the finite
point (0, −3), which does not satisfy the curve equation. -/
theorem add_not_closed :
    (Point.mk (.some (-2)) (.some 3) 0 17).isValid = true ∧
    (Point.mk (.some 2) (.some 5) 0 17).isValid = true ∧
    Point.add ⟨.some (-2), .some 3, 0, 17⟩ ⟨.some 2, .some 5, 0, 17⟩
      = .ok ⟨.some 0, .some (-3), 0, 17⟩ ∧
    (Point.mk (.some 0) (.some (-3)) 0 17).isValid = false := by decide

/-- C1 (amended): for valid operands on the same curve whose slope division,
if one occurs, is exact, addition returns a point that is the infinity point or
lies on the same curve, and carries the operands' curve parameters. -/
theorem add_closed_on_curve (p q : Point) (hp : p.isValid = true)
    (hq : q.isValid = true) (ha : p.a = q.a) (hb : p.b = q.b)
    (hex : ExactSlopes p q) :
    ∃ r, Point.add p q = .ok r ∧ r.isValid = true ∧ r.a = p.a ∧ r.b = p.b := by
  obtain ⟨x, y, a, b⟩ := p
  obtain ⟨x', y', a', b'⟩ := q
  simp only at ha hb
  subst ha
  subst hb
  cases x <;> cases y <;> cases x' <;> cases y' <;>
    simp only [Point.isValid, decide_eq_true_eq, Bool.false_eq_true] at hp hq
  · exact ⟨⟨.none, .none, a, b⟩,
      by simp [Point.add, CurveElement.is_none], rfl, rfl, rfl⟩
  · rename_i ox oy
    refine ⟨⟨.some ox, .some oy, a, b⟩,
      by simp [Point.add, CurveElement.is_none], ?_, rfl, rfl⟩
    simp only [Point.isValid, decide_eq_true_eq]
    exact hq
  · rename_i sx sy
    refine ⟨⟨.some sx, .some sy, a, b⟩,
      by simp [Point.add, CurveElement.is_none], ?_, rfl, rfl⟩
    simp only [Point.isValid, decide_eq_true_eq]
    exact hp
  · rename_i sx sy ox oy
    simp only [ExactSlopes] at hex
    by_cases hx : sx = ox
    · subst hx
      by_cases hy : sy = oy
      · subst hy
        by_cases h0 : sy = 0
        · subst h0
          refine ⟨⟨.none, .none, a, b⟩, ?_, rfl, rfl, rfl⟩
          simp [Point.add, CurveElement.is_none, CurveElement.unwrap]
        · have hdvd : (2 * sy) ∣ (3 * sx ^ 2 + a) := hex.2 rfl rfl h0
          have h2 : (2 * sy) ≠ 0 := by omega
          have e4 : (3 * sx ^ 2 + a).tdiv (2 * sy) * (2 * sy) = 3 * sx ^ 2 + a :=
            tdiv_mul_cancel_of_dvd h2 hdvd
          refine ⟨⟨.some ((3 * sx ^ 2 + a).tdiv (2 * sy) ^ 2 - 2 * sx),
                   .some ((3 * sx ^ 2 + a).tdiv (2 * sy)
                     * (sx - ((3 * sx ^ 2 + a).tdiv (2 * sy) ^ 2 - 2 * sx)) - sy),
                   a, b⟩, ?_, ?_, rfl, rfl⟩
          · have h2' : ¬(2 * sy = 0) := h2
            simp [Point.add, CurveElement.is_none, CurveElement.unwrap, intDiv, h0, h2',
              CurveElement.int_to_curve]
          · simp only [Point.isValid, decide_eq_true_eq]
            exact tangent_on_curve sx sy a b ((3 * sx ^ 2 + a).tdiv (2 * sy)) hp e4
      · have hne : CurveElement.some sy ≠ CurveElement.some oy := by
          intro hc
          injection hc with hc
          exact hy hc
        refine ⟨⟨.none, .none, a, b⟩, ?_, rfl, rfl, rfl⟩
        simp [Point.add, CurveElement.is_none, hne]
    · have hdvd : (ox - sx) ∣ (oy - sy) := hex.1 hx
      have hd : (ox - sx) ≠ 0 := by omega
      have e3 : (oy - sy).tdiv (ox - sx) * (ox - sx) = oy - sy :=
        tdiv_mul_cancel_of_dvd hd hdvd
      have hxne : CurveElement.some sx ≠ CurveElement.some ox := by
        intro hc
        injection hc with hc
        exact hx hc
      refine ⟨⟨.some ((oy - sy).tdiv (ox - sx) ^ 2 - sx - ox),
               .some ((oy - sy).tdiv (ox - sx)
                 * (sx - ((oy - sy).tdiv (ox - sx) ^ 2 - sx - ox)) - sy),
               a, b⟩, ?_, ?_, rfl, rfl⟩
      · have hd' : ¬(ox - sx = 0) := hd
        simp [Point.add, CurveElement.is_none, CurveElement.unwrap, hxne, intDiv, hd',
          CurveElement.int_to_curve]
      · simp only [Point.isValid, decide_eq_true_eq]
        exact chord_on_curve sx sy ox oy a b ((oy - sy).tdiv (ox - sx)) hp hq hx e3

/-- Witness for the amended C1 with the chord of (3, 7) and (−1, −1) on
a = 5, b = 7, whose slope division is exact: (−1 − 7) / (−1 − 3) = 2. -/
theorem add_closed_on_curve_witness :
    (Point.mk (.some 3) (.some 7) 5 7).isValid = true ∧
    (Point.mk (.some (-1)) (.some (-1)) 5 7).isValid = true ∧
    ∃ r, Point.add ⟨.some 3, .some 7, 5, 7⟩ ⟨.some (-1), .some (-1), 5, 7⟩ = .ok r ∧
      r.isValid = true ∧ r.a = 5 ∧ r.b = 7 :=
  ⟨by decide, by decide,
    add_closed_on_curve ⟨.some 3, .some 7, 5, 7⟩ ⟨.some (-1), .some (-1), 5, 7⟩
      (by decide) (by decide) rfl rfl
      ⟨fun _ => by decide, fun h _ _ => absurd h (by decide)⟩⟩

/-- C2 counterexample: the valid points (−2, 3) and (2, 5) on a = 0, b = 17 add
to (0, −3) in one order and to (0, −5) in the other, because the truncating
slope drops a different remainder on each side. -/
theorem add_not_comm :
    (Point.mk (.some (-2)) (.some 3) 0 17).isValid = true ∧
    (Point.mk (.some 2) (.some 5) 0 17).isValid = true ∧
    Point.add ⟨.some (-2), .some 3, 0, 17⟩ ⟨.some 2, .some 5, 0, 17⟩
      ≠ Point.add ⟨.some 2, .some 5, 0, 17⟩ ⟨.some (-2), .some 3, 0, 17⟩ := by decide

/-- C2 (amended): addition is commutative for valid operands on one curve
whenever the slope division, if one occurs, is exact. -/
theorem add_comm_exact (p q : Point) (hp : p.isValid = true) (hq : q.isValid = true)
    (ha : p.a = q.a) (hb : p.b = q.b) (hex : ExactSlopes p q) :
    Point.add p q = Point.add q p := by
  obtain ⟨x, y, a, b⟩ := p
  obtain ⟨x', y', a', b'⟩ := q
  simp only at ha hb
  subst ha
  subst hb
  cases x <;> cases y <;> cases x' <;> cases y' <;>
    simp only [Point.isValid, decide_eq_true_eq, Bool.false_eq_true] at hp hq
  · rfl
  · simp [Point.add, CurveElement.is_none]
  · simp [Point.add, CurveElement.is_none]
  · rename_i sx sy ox oy
    simp only [ExactSlopes] at hex
    by_cases hx : sx = ox
    · subst hx
      by_cases hy : sy = oy
      · subst hy
        rfl
      · have hne : CurveElement.some sy ≠ CurveElement.some oy := by
          intro hc
          injection hc with hc
          exact hy hc
        have hne' : CurveElement.some oy ≠ CurveElement.some sy := by
          intro hc
          injection hc with hc
          exact hy hc.symm
        simp [Point.add, CurveElement.is_none, hne, hne']
    · have hdvd : (ox - sx) ∣ (oy - sy) := hex.1 hx
      have hd : (ox - sx) ≠ 0 := by omega
      have e3 : (oy - sy).tdiv (ox - sx) * (ox - sx) = oy - sy :=
        tdiv_mul_cancel_of_dvd hd hdvd
      have hs2 : (sy - oy).tdiv (sx - ox) = (oy - sy).tdiv (ox - sx) := by
        rw [show sy - oy = -(oy - sy) by ring, show sx - ox = -(ox - sx) by ring,
          Int.neg_tdiv_neg]
      have hxne : CurveElement.some sx ≠ CurveElement.some ox := by
        intro hc
        injection hc with hc
        exact hx hc
      have hxne' : CurveElement.some ox ≠ CurveElement.some sx := by
        intro hc
        injection hc with hc
        exact hx hc.symm
      have hd' : ¬(ox - sx = 0) := hd
      have hd2 : ¬(sx - ox = 0) := by omega
      simp only [Point.add, CurveElement.is_none, CurveElement.unwrap, hxne, hxne',
        intDiv, hd', hd2, if_false, CurveElement.int_to_curve, hs2]
      simp [hxne, hxne', hd', hd2]
      constructor
      · ring
      · linear_combination (-1 : Int) * e3

/-- Witness for the amended C2 with the exact chord of (3, 7) and (−1, −1) on
a = 5, b = 7. -/
theorem add_comm_exact_witness :
    (Point.mk (.some 3) (.some 7) 5 7).isValid = true ∧
    (Point.mk (.some (-1)) (.some (-1)) 5 7).isValid = true ∧
    Point.add ⟨.some 3, .some 7, 5, 7⟩ ⟨.some (-1), .some (-1), 5, 7⟩
      = Point.add ⟨.some (-1), .some (-1), 5, 7⟩ ⟨.some 3, .some 7, 5, 7⟩ :=
  ⟨by decide, by decide,
    add_comm_exact ⟨.some 3, .some 7, 5, 7⟩ ⟨.some (-1), .some (-1), 5, 7⟩
      (by decide) (by decide) rfl rfl
      ⟨fun _ => by decide, fun h _ _ => absurd h (by decide)⟩⟩

end RustBtc
